import Mathlib

/-!
Verification of the feedzai-client CSV-to-event validation engine
(`src/main.rs`).  The Rust program reads a CSV file, builds one JSON
event per row (header names zipped with row values, every value a
string), and validates the event against the schema of the selected
endpoint.  Only the reference-data-account endpoint has a schema; it is
a fixed chain of coercion operators (drop, to-array, to-int, to-string)
which all go through the shared `convert` helper.

The embedding below is a shallow translation of the source:

* `Value` models `serde_json::Value`.  The payload of a float is the
  source text of the literal: no claim depends on f64 arithmetic, only
  on whether a float value is produced at all.  Object fields are an
  association list; the Rust map has unique keys and no claim depends
  on the map's internal key order, only on per-key lookups.
* `Err` models an `eyre` error: a raw cause plus the stack of context
  messages attached with `.context(...)` (outermost first).
* `Outcome` models the three ways a Rust computation ends here:
  `ok`, `fail` (an `Err` returned through `?`), and `panicked`
  (an `assert!`/`unwrap`/`todo!` aborting the process).
* `parse_i64`, `parse_bool` model `str::parse::<i64>` / `::<bool>`.
  `parse_json_array` models `serde_json::from_str::<Vec<Value>>`: a
  recursive-descent JSON parser (the `\uXXXX` string escape is not
  modelled; no claim exercises it).  These library functions are not
  part of the repository; they are modelled from their documented
  grammar.
-/

namespace FZ

/-- Model of `serde_json::Value` (`type Event = serde_json::Value`,
main.rs line 8).  `float` stores the source text of the literal. -/
inductive Value : Type where
  | null : Value
  | str : String → Value
  | int : Int → Value
  | float : String → Value
  | bool : Bool → Value
  | arr : List Value → Value
  | obj : List (String × Value) → Value

abbrev Fields := List (String × Value)

/-- An `eyre` error: the raw cause and the contexts attached with
`.context(...)`, outermost first. -/
structure Err : Type where
  context : List String
  cause : String
deriving DecidableEq

def Err.withContext (msg : String) (er : Err) : Err :=
  { er with context := msg :: er.context }

/-- How a fragment of the Rust program ends: a value, an error returned
through `?`, or a process-aborting panic (`assert!`, `unwrap`, `todo!`). -/
inductive Outcome (α : Type) : Type where
  | ok : α → Outcome α
  | fail : Err → Outcome α
  | panicked : Outcome α

def Outcome.isOk {α : Type} : Outcome α → Bool
  | .ok _ => true
  | _ => false

def Outcome.isFail {α : Type} : Outcome α → Bool
  | .fail _ => true
  | _ => false

def Outcome.map {α β : Type} (g : α → β) : Outcome α → Outcome β
  | .ok a => .ok (g a)
  | .fail er => .fail er
  | .panicked => .panicked

def Outcome.bind {α β : Type} : Outcome α → (α → Outcome β) → Outcome β
  | .ok a, g => g a
  | .fail er, _ => .fail er
  | .panicked, _ => .panicked

def Value.isStr : Value → Bool
  | .str _ => true
  | _ => false

/-! ### Association-list operations modelling the `serde_json::Map` -/

/-- Model of `map.get(key)` (first matching entry; the map has unique keys). -/
def lookupF (k : String) : Fields → Option Value
  | [] => none
  | (k₁, v) :: t => if k₁ = k then some v else lookupF k t

/-- Model of `map[key] = v` on a present key: replace the entry's value in place. -/
def updateF (k : String) (v : Value) : Fields → Fields
  | [] => []
  | (k₁, v₁) :: t => if k₁ = k then (k₁, v) :: t else (k₁, v₁) :: updateF k v t

/-- Model of `map.remove(key)`: drop every entry with this key (at most one
exists in a map built by `insertF`). -/
def removeF (k : String) : Fields → Fields
  | [] => []
  | (k₁, v₁) :: t => if k₁ = k then removeF k t else (k₁, v₁) :: removeF k t

/-- Model of `map.insert(key, v)` as done by `collect::<Event>()`: replace
the value when the key exists (last wins), otherwise append. -/
def insertF (fs : Fields) (k : String) (v : Value) : Fields :=
  if (lookupF k fs).isSome then updateF k v fs else fs ++ [(k, v)]

/-! ### The parse functions handed to `convert` -/

/-- The digit part of `str::parse::<i64>` after the optional sign:
one or more decimal digits, result must fit in an `i64`. -/
def parse_i64_digits (neg : Bool) (ds : List Char) : Except Err Value :=
  if ds = [] then .error { context := [], cause := "invalid digit found in string" }
  else if ds.all Char.isDigit then
    if neg then
      if ds.foldl (fun acc d => acc * 10 + (d.toNat - 48)) 0 ≤ 2 ^ 63 then
        .ok (.int (-(Int.ofNat (ds.foldl (fun acc d => acc * 10 + (d.toNat - 48)) 0))))
      else .error { context := [], cause := "number too small to fit in target type" }
    else
      if ds.foldl (fun acc d => acc * 10 + (d.toNat - 48)) 0 < 2 ^ 63 then
        .ok (.int (Int.ofNat (ds.foldl (fun acc d => acc * 10 + (d.toNat - 48)) 0)))
      else .error { context := [], cause := "number too large to fit in target type" }
  else .error { context := [], cause := "invalid digit found in string" }

/-- Model of `s.parse::<i64>()` (main.rs line 177): optional sign, decimal
digits, result must fit in an `i64`. -/
def parse_i64 (s : String) : Except Err Value :=
  match s.data with
  | [] => .error { context := [], cause := "cannot parse integer from empty string" }
  | c :: t =>
    if c = '-' then parse_i64_digits true t
    else if c = '+' then parse_i64_digits false t
    else parse_i64_digits false (c :: t)

/-- Model of `s.parse::<bool>()` (main.rs line 201): exactly "true" or "false". -/
def parse_bool (s : String) : Except Err Value :=
  if s = "true" then .ok (.bool true)
  else if s = "false" then .ok (.bool false)
  else .error { context := [], cause := "provided string was not true or false" }

/-- Model of `|s| Ok(s.into())` (main.rs line 193). -/
def str_to_value (s : String) : Except Err Value := .ok (.str s)

/-! #### JSON array parsing (`serde_json::from_str`, main.rs line 167) -/

def skipWs : List Char → List Char
  | [] => []
  | c :: t => if c = ' ' || c = '\t' || c = '\n' || c = '\r' then skipWs t else c :: t

def stripLit : List Char → List Char → Option (List Char)
  | [], cs => some cs
  | _ :: _, [] => none
  | p :: ps, c :: cs => if c = p then stripLit ps cs else none

/-- The JSON string escapes recognised by the model (`\uXXXX` is not
modelled; no claim exercises it): each pair maps the character after
the backslash to the character it denotes. -/
def escTable : List (Char × Char) :=
  [('"', '"'), ('\\', '\\'), ('/', '/'), ('n', '\n'), ('t', '\t'),
   ('r', '\r'), ('b', Char.ofNat 8), ('f', Char.ofNat 12)]

def escChar (e : Char) : Option Char :=
  (escTable.find? (fun p => p.1 == e)).map (fun p => p.2)

def parseStringBody (acc : List Char) : List Char → Option (String × List Char)
  | [] => none
  | '"' :: t => some (String.mk acc.reverse, t)
  | '\\' :: e :: t =>
    match escChar e with
    | some c => parseStringBody (c :: acc) t
    | none => none
  | '\\' :: [] => none
  | c :: t => parseStringBody (c :: acc) t

def takeDigits : List Char → List Char × List Char
  | [] => ([], [])
  | c :: t =>
    if c.isDigit then
      match takeDigits t with
      | (d, r) => (c :: d, r)
    else ([], c :: t)

/-- Final classification of a JSON number: integers that fit the
`serde_json` integer range stay integers, everything else is a float
(stored as its source text). -/
def mkNumVal (sgn body : List Char) (isFloat : Bool) (rest : List Char) :
    Option (Value × List Char) :=
  if isFloat then some (.float (String.mk (sgn ++ body)), rest)
  else
    let n : Nat := body.foldl (fun acc d => acc * 10 + (d.toNat - 48)) 0
    if sgn = [] then
      if n < 2 ^ 64 then some (.int (Int.ofNat n), rest)
      else some (.float (String.mk body), rest)
    else
      if n ≤ 2 ^ 63 then some (.int (-(Int.ofNat n)), rest)
      else some (.float (String.mk (sgn ++ body)), rest)

def jsonNumExp (sgn body : List Char) (isFloat : Bool) (rest : List Char) :
    Option (Value × List Char) :=
  match rest with
  | c :: r₂ =>
    if c = 'e' || c = 'E' then
      let expPart : List Char × List Char :=
        match r₂ with
        | '+' :: r₃ => ([c, '+'], r₃)
        | '-' :: r₃ => ([c, '-'], r₃)
        | _ => ([c], r₂)
      match expPart with
      | (es, r₃) =>
        match takeDigits r₃ with
        | ([], _) => none
        | (ed, r₄) => some (.float (String.mk (sgn ++ body ++ es ++ ed)), r₄)
    else mkNumVal sgn body isFloat rest
  | [] => mkNumVal sgn body isFloat []

def jsonNumTail (sgn intPart : List Char) (rest : List Char) :
    Option (Value × List Char) :=
  match rest with
  | '.' :: r₂ =>
    match takeDigits r₂ with
    | ([], _) => none
    | (fd, r₃) => jsonNumExp sgn (intPart ++ '.' :: fd) true r₃
  | _ => jsonNumExp sgn intPart false rest

def parseJsonNumber (cs : List Char) : Option (Value × List Char) :=
  let signRest : List Char × List Char :=
    match cs with
    | '-' :: t => ([('-' : Char)], t)
    | _ => ([], cs)
  match signRest with
  | (sgn, cs₁) =>
    match cs₁ with
    | [] => none
    | c :: t =>
      if c = '0' then jsonNumTail sgn ['0'] t
      else if c.isDigit then
        match takeDigits t with
        | (d, r) => jsonNumTail sgn (c :: d) r
      else none

mutual

def parseValue : Nat → List Char → Option (Value × List Char)
  | 0, _ => none
  | Nat.succ fuel, cs =>
    match skipWs cs with
    | [] => none
    | '"' :: t =>
      match parseStringBody [] t with
      | some (s, r) => some (.str s, r)
      | none => none
    | '[' :: t =>
      match skipWs t with
      | ']' :: r => some (.arr [], r)
      | t₁ =>
        match parseElems fuel t₁ with
        | some (vs, r) => some (.arr vs, r)
        | none => none
    | '{' :: t =>
      match skipWs t with
      | '}' :: r => some (.obj [], r)
      | t₁ =>
        match parseMembers fuel t₁ with
        | some (ms, r) => some (.obj ms, r)
        | none => none
    | 't' :: t => (stripLit ['r', 'u', 'e'] t).map (fun r => (.bool true, r))
    | 'f' :: t => (stripLit ['a', 'l', 's', 'e'] t).map (fun r => (.bool false, r))
    | 'n' :: t => (stripLit ['u', 'l', 'l'] t).map (fun r => (.null, r))
    | c :: t => if c = '-' || c.isDigit then parseJsonNumber (c :: t) else none

def parseElems : Nat → List Char → Option (List Value × List Char)
  | 0, _ => none
  | Nat.succ fuel, cs =>
    match parseValue fuel cs with
    | none => none
    | some (v, r) =>
      match skipWs r with
      | ']' :: r₂ => some ([v], r₂)
      | ',' :: r₂ =>
        match parseElems fuel (skipWs r₂) with
        | some (vs, r₃) => some (v :: vs, r₃)
        | none => none
      | _ => none

def parseMembers : Nat → List Char → Option (List (String × Value) × List Char)
  | 0, _ => none
  | Nat.succ fuel, cs =>
    match skipWs cs with
    | '"' :: t =>
      match parseStringBody [] t with
      | none => none
      | some (k, r) =>
        match skipWs r with
        | ':' :: r₂ =>
          match parseValue fuel (skipWs r₂) with
          | none => none
          | some (v, r₃) =>
            match skipWs r₃ with
            | '}' :: r₄ => some ([(k, v)], r₄)
            | ',' :: r₄ =>
              match parseMembers fuel r₄ with
              | some (ms, r₅) => some ((k, v) :: ms, r₅)
              | none => none
            | _ => none
        | _ => none
    | _ => none

end

/-- Model of `|s| Ok(serde_json::Value::Array(serde_json::from_str(s)?))`
(main.rs lines 166-168): the whole string must be one JSON array. -/
def parse_json_array (s : String) : Except Err Value :=
  match parseValue (2 * s.data.length + 4) s.data with
  | some (Value.arr vs, rest) =>
    if skipWs rest = [] then .ok (.arr vs)
    else .error { context := [], cause := "trailing characters" }
  | some (_, _) => .error { context := [], cause := "invalid type: expected a sequence" }
  | none => .error { context := [], cause := "expected value" }

/-! ### The coercion operators (`impl EventValidation for Event`) -/

/-- Model of `EventValidation::convert` (main.rs lines 207-221):
`assert!(self.is_object())`, then if the key is present, replace its
value with `f` applied to `as_str().unwrap()` of the current value.  A
non-object event or a present non-string value aborts with a panic; a
parse error is returned unchanged through `?`. -/
def convert (e : Value) (key : String) (f : String → Except Err Value) : Outcome Value :=
  match e with
  | .obj fields =>
    match lookupF key fields with
    | none => .ok (.obj fields)
    | some (.str s) =>
      match f s with
      | .ok v => .ok (.obj (updateF key v fields))
      | .error er => .fail er
    | some _ => .panicked
  | _ => .panicked

/-- Attach the per-key context message used by `array_fields`
(`.context(format!("Field {key} is not an array"))`); the other
`*_fields` loops attach nothing. -/
def wrapCtx (ctx : Option (String → String)) (k : String) (er : Err) : Err :=
  match ctx with
  | some g => er.withContext (g k)
  | none => er

/-- The shared shape of the five `*_fields` loops (main.rs lines
164-205): `for &key in keys { self.convert(key, f)<.context(...)>?; }`.
The loops differ only in the parse function and in whether a context
message is attached to a failure. -/
def convert_fields (f : String → Except Err Value) (ctx : Option (String → String)) :
    Value → List String → Outcome Value
  | e, [] => .ok e
  | e, k :: ks =>
    match convert e k f with
    | .ok e₁ => convert_fields f ctx e₁ ks
    | .fail er => .fail (wrapCtx ctx k er)
    | .panicked => .panicked

def array_ctx (k : String) : String := "Field " ++ k ++ " is not an array"

/-- Model of `EventValidation::array_fields` (main.rs lines 164-173). -/
def array_fields (e : Value) (keys : List String) : Outcome Value :=
  convert_fields parse_json_array (some array_ctx) e keys

/-- Model of `EventValidation::int_fields` (main.rs lines 175-181). -/
def int_fields (e : Value) (keys : List String) : Outcome Value :=
  convert_fields parse_i64 none e keys

/-- Model of `EventValidation::float_fields` (main.rs lines 183-189).  The f64
parse function of the Rust standard library is external to the
repository, and no claim depends on which strings it accepts, so it is
an explicit parameter. -/
def float_fields (pf : String → Except Err Value) (e : Value) (keys : List String) :
    Outcome Value :=
  convert_fields pf none e keys

/-- Model of `EventValidation::str_fields` (main.rs lines 191-197). -/
def str_fields (e : Value) (keys : List String) : Outcome Value :=
  convert_fields str_to_value none e keys

/-- Model of `EventValidation::bool_fields` (main.rs lines 199-205). -/
def bool_fields (e : Value) (keys : List String) : Outcome Value :=
  convert_fields parse_bool none e keys

/-- The fold of `removeF` performed by `drop_fields`' loop. -/
def dropAll : Fields → List String → Fields
  | fs, [] => fs
  | fs, k :: ks => dropAll (removeF k fs) ks

/-- Model of `EventValidation::drop_fields` (main.rs lines 150-162):
`assert!(self.is_object())`, then remove each listed key if present.
Never returns an error. -/
def drop_fields (e : Value) (keys : List String) : Outcome Value :=
  match e with
  | .obj fields => .ok (.obj (dropAll fields keys))
  | _ => .panicked

/-! ### The reference-data-account schema (main.rs lines 224-241) -/

def dropList : List String := ["key", "event_external_id"]
def arrayList : List String := ["account_cards", "account_customers", "account_limits"]
def intList : List String := ["account_number_of_cards", "account_open_date"]
def strList : List String := ["account_active"]

namespace ReferenceDataAccountValidator

/-- Model of `ReferenceDataAccountValidator::validate` (main.rs lines 226-241):
drop, then array-ify, then int-ify, then str-ify, each `?`-chained. -/
def validate (e : Value) : Outcome Value :=
  (((drop_fields e dropList).bind
    (fun e₁ => array_fields e₁ arrayList)).bind
    (fun e₂ => int_fields e₂ intList)).bind
    (fun e₃ => str_fields e₃ strList)

end ReferenceDataAccountValidator

/-- Model of `enum Endpoint` (main.rs lines 78-96). -/
inductive Endpoint : Type where
  | ReferenceDataAccount
  | ReferenceDataCard
  | ReferenceDataCustomer
  | ReferenceDataDevice
  | CardAuthorization
  | CardClearing
  | TransferInitiation
  | TransferSettlement
deriving DecidableEq

/-- Model of `Endpoint::validator` followed by `Validator::validate`
(main.rs lines 98-105, 146-148): the reference-data-account endpoint
dispatches to its validator; every other endpoint hits `todo!()`, which
panics.  In `main` this whole expression is evaluated inside the
per-record closure. -/
def applyEndpointValidator (ep : Endpoint) (e : Value) : Outcome Value :=
  match ep with
  | .ReferenceDataAccount => ReferenceDataAccountValidator.validate e
  | _ => .panicked

/-- Event construction (main.rs lines 26-30): zip the headers with the
record's values (silently truncating to the shorter sequence) and
collect the pairs into a map, every value a string. -/
def buildEvent (headers record : List String) : Value :=
  .obj ((headers.zip record).foldl (fun fs kv => insertF fs kv.1 (.str kv.2)) [])

/-- The pipeline of `main` (main.rs lines 23-34) over the already-read
records.  Per record: build the event and validate it.  `map_ok` wraps
the validation result inside the reader's `Result`; `flatten_ok` then
treats the inner `eyre::Result` as an iterator, so a validation error
yields no item at all — the row is silently dropped.  Only a panic
(`todo!` or the `convert`/`drop_fields` asserts) aborts the run. -/
def runPipeline (ep : Endpoint) (headers : List String) :
    List (List String) → Outcome (List Value)
  | [] => .ok []
  | r :: rs =>
    match applyEndpointValidator ep (buildEvent headers r) with
    | .ok e => (runPipeline ep headers rs).map (fun es => e :: es)
    | .fail _ => runPipeline ep headers rs
    | .panicked => .panicked

/-- Field access on an event (`event["k"]`-style lookup). -/
def getField (e : Value) (k : String) : Option Value :=
  match e with
  | .obj fs => lookupF k fs
  | _ => none

/-- Returns `true` when an optional field value is absent or holds a string:
the situations in which `convert` does not panic on that field. -/
def optStr : Option Value → Bool
  | none => true
  | some v => v.isStr

/-! ## A normal form for one `convert`/`remove` step

Each of the six operators is a loop over its key list; one iteration is
either a `remove` (for `drop_fields`) or a `convert` with a fixed parse
function.  `stepAct` computes what the iteration does as a function of
the field's current value alone; `foldF` replays a whole loop at the
level of field lists.  Bridge lemmas below identify the source-shaped
definitions with this normal form. -/

inductive StepKind : Type where
  | removeStep : StepKind
  | convStep : (String → Except Err Value) → Option (String → String) → StepKind

inductive StepAct : Type where
  | keep : StepAct
  | put : Value → StepAct
  | del : StepAct
  | err : Err → StepAct
  | boom : StepAct

def stepAct (s : StepKind) (k : String) (cur : Option Value) : StepAct :=
  match s with
  | .removeStep => .del
  | .convStep f c =>
    match cur with
    | none => .keep
    | some (.str s₀) =>
      match f s₀ with
      | .ok v => .put v
      | .error er => .err (wrapCtx c k er)
    | some _ => .boom

def applyAct (k : String) (a : StepAct) (fs : Fields) : Outcome Fields :=
  match a with
  | .keep => .ok fs
  | .put v => .ok (updateF k v fs)
  | .del => .ok (removeF k fs)
  | .err er => .fail er
  | .boom => .panicked

def stepF (s : StepKind) (fs : Fields) (k : String) : Outcome Fields :=
  applyAct k (stepAct s k (lookupF k fs)) fs

def foldF (s : StepKind) : Fields → List String → Outcome Fields
  | fs, [] => .ok fs
  | fs, k :: ks =>
    match stepF s fs k with
    | .ok fs₁ => foldF s fs₁ ks
    | .fail er => .fail er
    | .panicked => .panicked

/-- The correspondence asserted by the order-independence property:
both orders produce the same event when they succeed, and one order
returns an error exactly when the other does.  (Two different errors
may be reported, and a panic is a third possibility distinct from a
returned error.) -/
def OutRel {α : Type} (r₁ r₂ : Outcome α) : Prop :=
  (∀ v, r₁ = .ok v ↔ r₂ = .ok v) ∧ r₁.isFail = r₂.isFail

/-- One coercion operator together with its field-name list: the six
`EventValidation` methods.  The float operator carries its parse
function explicitly (see `float_fields`). -/
inductive Op : Type where
  | dropOp : List String → Op
  | arrayOp : List String → Op
  | intOp : List String → Op
  | floatOp : (String → Except Err Value) → List String → Op
  | strOp : List String → Op
  | boolOp : List String → Op

def Op.keys : Op → List String
  | .dropOp ks => ks
  | .arrayOp ks => ks
  | .intOp ks => ks
  | .floatOp _ ks => ks
  | .strOp ks => ks
  | .boolOp ks => ks

def Op.apply : Op → Value → Outcome Value
  | .dropOp ks, e => drop_fields e ks
  | .arrayOp ks, e => array_fields e ks
  | .intOp ks, e => int_fields e ks
  | .floatOp pf ks, e => float_fields pf e ks
  | .strOp ks, e => str_fields e ks
  | .boolOp ks, e => bool_fields e ks

def Op.stepKind : Op → StepKind
  | .dropOp _ => .removeStep
  | .arrayOp _ => .convStep parse_json_array (some array_ctx)
  | .intOp _ => .convStep parse_i64 none
  | .floatOp pf _ => .convStep pf none
  | .strOp _ => .convStep str_to_value none
  | .boolOp _ => .convStep parse_bool none

/-- Substring helpers: `Err.mentions er field` is `true` when some context
message or the cause of the error contains the field name as a substring;
its negation expresses that an error does not name the offending field. -/
def chPrefix : List Char → List Char → Bool
  | [], _ => true
  | p :: ps, cs =>
    match cs with
    | [] => false
    | c :: cs₁ => p == c && chPrefix ps cs₁

def occursIn (pat : List Char) : List Char → Bool
  | [] => pat.isEmpty
  | c :: t => chPrefix pat (c :: t) || occursIn pat t

def Err.mentions (er : Err) (field : String) : Bool :=
  er.context.any (fun c => occursIn field.data c.data) || occursIn field.data er.cause.data

/-! ## Concrete rows used by the end-to-end statements -/

def c1Headers : List String :=
  ["key", "event_external_id", "account_cards", "account_number_of_cards",
    "account_open_date", "account_active"]

def c1Values : List String :=
  ["k1", "e1", "[\"c1\",\"c2\"]", "2", "20200101", "true"]

def c1Expected : Value :=
  .obj [("account_cards", .arr [.str "c1", .str "c2"]),
        ("account_number_of_cards", .int 2),
        ("account_open_date", .int 20200101),
        ("account_active", .str "true")]

def c5Headers : List String :=
  ["key", "event_external_id", "account_cards", "account_number_of_cards",
    "account_open_date", "account_active", "other"]

def c5Values : List String :=
  ["k1", "e1", "[\"c1\"]", "2", "20200101", "true", "zzz"]

def c5Out : Value :=
  .obj [("account_cards", .arr [.str "c1"]),
        ("account_number_of_cards", .int 2),
        ("account_open_date", .int 20200101),
        ("account_active", .str "true"),
        ("other", .str "zzz")]

/-! ## Lemmas about the association-list operations -/

theorem lookupF_update_ne {k k₀ : String} (v : Value) (fs : Fields) (h : k₀ ≠ k) :
    lookupF k (updateF k₀ v fs) = lookupF k fs := by
  induction fs with
  | nil => rfl
  | cons p t ih =>
    obtain ⟨k₁, v₁⟩ := p
    by_cases h₁ : k₁ = k₀
    · subst h₁
      simp [updateF, lookupF, h]
    · by_cases h₂ : k₁ = k
      · subst h₂
        simp [updateF, lookupF, h₁]
      · simp [updateF, lookupF, h₁, h₂, ih]

theorem lookupF_update_self {k : String} {fs : Fields} {w : Value} (v : Value)
    (h : lookupF k fs = some w) : lookupF k (updateF k v fs) = some v := by
  induction fs with
  | nil => simp [lookupF] at h
  | cons p t ih =>
    obtain ⟨k₁, v₁⟩ := p
    by_cases h₁ : k₁ = k
    · simp [updateF, lookupF, h₁]
    · simp only [lookupF, if_neg h₁] at h
      simp [updateF, lookupF, h₁, ih h]

theorem updateF_self_eq {k : String} {fs : Fields} {v : Value}
    (h : lookupF k fs = some v) : updateF k v fs = fs := by
  induction fs with
  | nil => rfl
  | cons p t ih =>
    obtain ⟨k₁, v₁⟩ := p
    by_cases h₁ : k₁ = k
    · simp only [lookupF, if_pos h₁] at h
      obtain rfl : v₁ = v := Option.some.inj h
      simp [updateF, h₁]
    · simp only [lookupF, if_neg h₁] at h
      simp [updateF, h₁, ih h]

theorem lookupF_remove_ne {k k₀ : String} (fs : Fields) (h : k₀ ≠ k) :
    lookupF k (removeF k₀ fs) = lookupF k fs := by
  induction fs with
  | nil => rfl
  | cons p t ih =>
    obtain ⟨k₁, v₁⟩ := p
    by_cases h₁ : k₁ = k₀
    · subst h₁
      simp [removeF, lookupF, h, ih]
    · by_cases h₂ : k₁ = k
      · subst h₂
        simp [removeF, lookupF, h₁]
      · simp [removeF, lookupF, h₁, h₂, ih]

theorem lookupF_remove_self (k : String) (fs : Fields) :
    lookupF k (removeF k fs) = none := by
  induction fs with
  | nil => rfl
  | cons p t ih =>
    obtain ⟨k₁, v₁⟩ := p
    by_cases h₁ : k₁ = k
    · simp [removeF, h₁, ih]
    · simp [removeF, lookupF, h₁, ih]

theorem updateF_updateF_ne {k₁ k₂ : String} (v₁ v₂ : Value) (fs : Fields) (h : k₁ ≠ k₂) :
    updateF k₁ v₁ (updateF k₂ v₂ fs) = updateF k₂ v₂ (updateF k₁ v₁ fs) := by
  induction fs with
  | nil => rfl
  | cons p t ih =>
    obtain ⟨k₀, v₀⟩ := p
    by_cases h₁ : k₀ = k₁
    · subst h₁
      simp [updateF, h, ih]
    · by_cases h₂ : k₀ = k₂
      · subst h₂
        simp [updateF, h₁, Ne.symm h]
      · simp [updateF, h₁, h₂, ih]

theorem removeF_updateF_ne {k₁ k₂ : String} (v : Value) (fs : Fields) (h : k₁ ≠ k₂) :
    removeF k₁ (updateF k₂ v fs) = updateF k₂ v (removeF k₁ fs) := by
  induction fs with
  | nil => rfl
  | cons p t ih =>
    obtain ⟨k₀, v₀⟩ := p
    by_cases h₁ : k₀ = k₁
    · subst h₁
      simp [removeF, updateF, h, ih]
    · by_cases h₂ : k₀ = k₂
      · subst h₂
        simp [removeF, updateF, h₁, ih]
      · simp [removeF, updateF, h₁, h₂, ih]

theorem removeF_removeF (k₁ k₂ : String) (fs : Fields) :
    removeF k₁ (removeF k₂ fs) = removeF k₂ (removeF k₁ fs) := by
  induction fs with
  | nil => rfl
  | cons p t ih =>
    obtain ⟨k₀, v₀⟩ := p
    by_cases h₁ : k₀ = k₁
    · subst h₁
      by_cases h₂ : k₀ = k₂
      · subst h₂
        simp [removeF]
      · simp [removeF, h₂, ih]
    · by_cases h₂ : k₀ = k₂
      · subst h₂
        simp [removeF, h₁, ih]
      · simp [removeF, h₁, h₂, ih]

theorem removeF_idem (k : String) (fs : Fields) :
    removeF k (removeF k fs) = removeF k fs := by
  induction fs with
  | nil => rfl
  | cons p t ih =>
    obtain ⟨k₀, v₀⟩ := p
    by_cases h₁ : k₀ = k
    · simp [removeF, h₁, ih]
    · simp [removeF, h₁, ih]

theorem lookupF_mem {k : String} {v : Value} {fs : Fields}
    (h : lookupF k fs = some v) : (k, v) ∈ fs := by
  induction fs with
  | nil => simp [lookupF] at h
  | cons p t ih =>
    obtain ⟨k₁, v₁⟩ := p
    by_cases h₁ : k₁ = k
    · subst h₁
      simp only [lookupF, if_pos rfl] at h
      obtain rfl : v₁ = v := Option.some.inj h
      exact List.mem_cons_self _ _
    · simp only [lookupF, if_neg h₁] at h
      exact List.mem_cons_of_mem _ (ih h)

/-! ## Bridges between the source-shaped definitions and `foldF` -/

theorem convert_fields_obj (f : String → Except Err Value) (c : Option (String → String))
    (fs : Fields) (ks : List String) :
    convert_fields f c (.obj fs) ks = Outcome.map Value.obj (foldF (.convStep f c) fs ks) := by
  induction ks generalizing fs with
  | nil => rfl
  | cons k t ih =>
    cases hcur : lookupF k fs with
    | none =>
      simp [convert_fields, convert, hcur, foldF, stepF, stepAct, applyAct, ih]
    | some v =>
      cases v with
      | str s₀ =>
        cases hf : f s₀ with
        | ok w =>
          simp [convert_fields, convert, hcur, hf, foldF, stepF, stepAct, applyAct, ih]
        | error er =>
          simp [convert_fields, convert, hcur, hf, foldF, stepF, stepAct, applyAct,
            Outcome.map]
      | null => simp [convert_fields, convert, hcur, foldF, stepF, stepAct, applyAct,
          Outcome.map]
      | int n => simp [convert_fields, convert, hcur, foldF, stepF, stepAct, applyAct,
          Outcome.map]
      | float x => simp [convert_fields, convert, hcur, foldF, stepF, stepAct, applyAct,
          Outcome.map]
      | bool b => simp [convert_fields, convert, hcur, foldF, stepF, stepAct, applyAct,
          Outcome.map]
      | arr vs => simp [convert_fields, convert, hcur, foldF, stepF, stepAct, applyAct,
          Outcome.map]
      | obj ms => simp [convert_fields, convert, hcur, foldF, stepF, stepAct, applyAct,
          Outcome.map]

theorem foldF_removeStep (fs : Fields) (ks : List String) :
    foldF .removeStep fs ks = .ok (dropAll fs ks) := by
  induction ks generalizing fs with
  | nil => rfl
  | cons k t ih => simp [foldF, stepF, stepAct, applyAct, dropAll, ih]

theorem drop_fields_obj (fs : Fields) (ks : List String) :
    drop_fields (.obj fs) ks = Outcome.map Value.obj (foldF .removeStep fs ks) := by
  simp [drop_fields, foldF_removeStep, Outcome.map]

/-! ## Behavioral lemmas about `stepF` and `foldF` -/

theorem stepF_no_panic {s : StepKind} {fs : Fields} {k : String}
    (h : optStr (lookupF k fs) = true) : stepF s fs k ≠ .panicked := by
  cases s with
  | removeStep => simp [stepF, stepAct, applyAct]
  | convStep f c =>
    cases hcur : lookupF k fs with
    | none => simp [stepF, stepAct, applyAct, hcur]
    | some v =>
      rw [hcur] at h
      cases v with
      | str s₀ =>
        cases hf : f s₀ with
        | ok w => simp [stepF, stepAct, applyAct, hcur, hf]
        | error er => simp [stepF, stepAct, applyAct, hcur, hf]
      | null => simp [optStr, Value.isStr] at h
      | int n => simp [optStr, Value.isStr] at h
      | float x => simp [optStr, Value.isStr] at h
      | bool b => simp [optStr, Value.isStr] at h
      | arr vs => simp [optStr, Value.isStr] at h
      | obj ms => simp [optStr, Value.isStr] at h

theorem stepF_frame {s : StepKind} {fs fs₁ : Fields} {k₀ : String}
    (h : stepF s fs k₀ = .ok fs₁) {k : String} (hk : k₀ ≠ k) :
    lookupF k fs₁ = lookupF k fs := by
  cases ha : stepAct s k₀ (lookupF k₀ fs) with
  | keep =>
    simp only [stepF, ha, applyAct, Outcome.ok.injEq] at h
    rw [← h]
  | put v =>
    simp only [stepF, ha, applyAct, Outcome.ok.injEq] at h
    rw [← h, lookupF_update_ne v fs hk]
  | del =>
    simp only [stepF, ha, applyAct, Outcome.ok.injEq] at h
    rw [← h, lookupF_remove_ne fs hk]
  | err er => simp [stepF, ha, applyAct] at h
  | boom => simp [stepF, ha, applyAct] at h

theorem foldF_frame {s : StepKind} {fs fs₁ : Fields} {ks : List String}
    (h : foldF s fs ks = .ok fs₁) {k : String} (hk : k ∉ ks) :
    lookupF k fs₁ = lookupF k fs := by
  induction ks generalizing fs with
  | nil =>
    simp only [foldF, Outcome.ok.injEq] at h
    rw [h]
  | cons k₀ t ih =>
    have hne : k₀ ≠ k := fun hh => hk (hh ▸ List.mem_cons_self _ _)
    have htl : k ∉ t := fun hh => hk (List.mem_cons_of_mem _ hh)
    cases hstep : stepF s fs k₀ with
    | ok fs₂ =>
      have h₂ : foldF s fs₂ t = .ok fs₁ := by
        simpa only [foldF, hstep] using h
      rw [ih h₂ htl, stepF_frame hstep hne]
    | fail er => simp [foldF, hstep] at h
    | panicked => simp [foldF, hstep] at h

theorem foldF_no_panic {s : StepKind} {fs : Fields} {ks : List String}
    (h : ∀ k ∈ ks, optStr (lookupF k fs) = true) (hnd : ks.Nodup) :
    foldF s fs ks ≠ .panicked := by
  induction ks generalizing fs with
  | nil => simp [foldF]
  | cons k₀ t ih =>
    obtain ⟨hk₀, hnd'⟩ := List.nodup_cons.mp hnd
    cases hstep : stepF s fs k₀ with
    | ok fs₂ =>
      have hstr : ∀ k ∈ t, optStr (lookupF k fs₂) = true := by
        intro k hk
        have hne : k₀ ≠ k := fun hh => hk₀ (hh ▸ hk)
        rw [stepF_frame hstep hne]
        exact h k (List.mem_cons_of_mem _ hk)
      simpa only [foldF, hstep] using ih hstr hnd'
    | fail er => simp [foldF, hstep]
    | panicked =>
      exact absurd hstep (stepF_no_panic (h k₀ (List.mem_cons_self _ _)))

theorem foldF_update_comm {s : StepKind} {k : String} {ks : List String} (v : Value)
    (fs : Fields) (hk : k ∉ ks) :
    foldF s (updateF k v fs) ks = Outcome.map (updateF k v) (foldF s fs ks) := by
  induction ks generalizing fs with
  | nil => rfl
  | cons k₀ t ih =>
    have hne : k ≠ k₀ := fun hh => hk (hh ▸ List.mem_cons_self _ _)
    have htl : k ∉ t := fun hh => hk (List.mem_cons_of_mem _ hh)
    have hl : lookupF k₀ (updateF k v fs) = lookupF k₀ fs :=
      lookupF_update_ne v fs hne
    cases ha : stepAct s k₀ (lookupF k₀ fs) with
    | keep =>
      simp only [foldF, stepF, hl, ha, applyAct]
      exact ih fs htl
    | put w =>
      simp only [foldF, stepF, hl, ha, applyAct]
      rw [updateF_updateF_ne w v fs (fun hh => hne hh.symm)]
      exact ih (updateF k₀ w fs) htl
    | del =>
      simp only [foldF, stepF, hl, ha, applyAct]
      rw [removeF_updateF_ne v fs (fun hh => hne hh.symm)]
      exact ih (removeF k₀ fs) htl
    | err er => simp only [foldF, stepF, hl, ha, applyAct, Outcome.map]
    | boom => simp only [foldF, stepF, hl, ha, applyAct, Outcome.map]

theorem foldF_remove_comm {s : StepKind} {k : String} {ks : List String}
    (fs : Fields) (hk : k ∉ ks) :
    foldF s (removeF k fs) ks = Outcome.map (removeF k) (foldF s fs ks) := by
  induction ks generalizing fs with
  | nil => rfl
  | cons k₀ t ih =>
    have hne : k ≠ k₀ := fun hh => hk (hh ▸ List.mem_cons_self _ _)
    have htl : k ∉ t := fun hh => hk (List.mem_cons_of_mem _ hh)
    have hl : lookupF k₀ (removeF k fs) = lookupF k₀ fs :=
      lookupF_remove_ne fs hne
    cases ha : stepAct s k₀ (lookupF k₀ fs) with
    | keep =>
      simp only [foldF, stepF, hl, ha, applyAct]
      exact ih fs htl
    | put w =>
      simp only [foldF, stepF, hl, ha, applyAct]
      rw [← removeF_updateF_ne w fs hne]
      exact ih (updateF k₀ w fs) htl
    | del =>
      simp only [foldF, stepF, hl, ha, applyAct]
      rw [removeF_removeF]
      exact ih (removeF k₀ fs) htl
    | err er => simp only [foldF, stepF, hl, ha, applyAct, Outcome.map]
    | boom => simp only [foldF, stepF, hl, ha, applyAct, Outcome.map]

/-! ## Commutation of two operator loops on disjoint key lists -/

theorem OutRel.refl {α : Type} {r : Outcome α} : OutRel r r := ⟨fun _ => Iff.rfl, rfl⟩

theorem outRel_fail {α : Type} (e₁ e₂ : Err) :
    OutRel (Outcome.fail (α := α) e₁) (.fail e₂) :=
  ⟨fun _ => ⟨fun h => Outcome.noConfusion h, fun h => Outcome.noConfusion h⟩, rfl⟩

/-- Two operator loops over disjoint, duplicate-free key lists, started
on fields whose values at all involved keys are absent-or-string,
commute up to `OutRel`. -/
theorem foldF_comm (s₁ s₂ : StepKind) (ks₂ : List String) (hnd₂ : ks₂.Nodup) :
    ∀ (ks₁ : List String) (fs : Fields),
      (∀ k, (k ∈ ks₁ ∨ k ∈ ks₂) → optStr (lookupF k fs) = true) →
      ks₁.Nodup → (∀ k ∈ ks₁, k ∉ ks₂) →
      OutRel ((foldF s₁ fs ks₁).bind (fun u => foldF s₂ u ks₂))
             ((foldF s₂ fs ks₂).bind (fun u => foldF s₁ u ks₁))
  | [], fs, _, _, _ => by
    have h₂ : (foldF s₂ fs ks₂).bind (fun u => foldF s₁ u []) = foldF s₂ fs ks₂ := by
      cases foldF s₂ fs ks₂ <;> rfl
    show OutRel ((Outcome.ok fs).bind (fun u => foldF s₂ u ks₂)) _
    rw [h₂]
    exact OutRel.refl
  | k :: t, fs, hstr, hnd₁, hdisj => by
    have hkks₂ : k ∉ ks₂ := hdisj k (List.mem_cons_self _ _)
    have hkt : k ∉ t := (List.nodup_cons.mp hnd₁).1
    have hnd₁' : t.Nodup := (List.nodup_cons.mp hnd₁).2
    have hdisj' : ∀ k' ∈ t, k' ∉ ks₂ := fun k' h₁ => hdisj k' (List.mem_cons_of_mem _ h₁)
    have hstrk : optStr (lookupF k fs) = true := hstr k (Or.inl (List.mem_cons_self _ _))
    have hstr₂ : ∀ k' ∈ ks₂, optStr (lookupF k' fs) = true :=
      fun k' hk' => hstr k' (Or.inr hk')
    cases ha : stepAct s₁ k (lookupF k fs) with
    | boom =>
      have hb : stepF s₁ fs k = .panicked := by simp [stepF, ha, applyAct]
      exact absurd hb (stepF_no_panic hstrk)
    | err er =>
      have hL : foldF s₁ fs (k :: t) = .fail er := by simp [foldF, stepF, ha, applyAct]
      cases hf₂ : foldF s₂ fs ks₂ with
      | ok u =>
        have hlk : lookupF k u = lookupF k fs := foldF_frame hf₂ hkks₂
        have hR : foldF s₁ u (k :: t) = .fail er := by
          simp [foldF, stepF, hlk, ha, applyAct]
        simp only [hL, hf₂, Outcome.bind, hR]
        exact OutRel.refl
      | fail er₂ =>
        simp only [hL, hf₂, Outcome.bind]
        exact outRel_fail er er₂
      | panicked => exact absurd hf₂ (foldF_no_panic hstr₂ hnd₂)
    | keep =>
      have hL : foldF s₁ fs (k :: t) = foldF s₁ fs t := by
        simp [foldF, stepF, ha, applyAct]
      have hstr' : ∀ k', (k' ∈ t ∨ k' ∈ ks₂) → optStr (lookupF k' fs) = true := by
        intro k' hk'
        rcases hk' with h₁ | h₁
        · exact hstr k' (Or.inl (List.mem_cons_of_mem _ h₁))
        · exact hstr k' (Or.inr h₁)
      have ihh := foldF_comm s₁ s₂ ks₂ hnd₂ t fs hstr' hnd₁' hdisj'
      have hRR : (foldF s₂ fs ks₂).bind (fun u => foldF s₁ u (k :: t))
          = (foldF s₂ fs ks₂).bind (fun u => foldF s₁ u t) := by
        cases hf₂ : foldF s₂ fs ks₂ with
        | ok u =>
          have hlk : lookupF k u = lookupF k fs := foldF_frame hf₂ hkks₂
          simp only [Outcome.bind]
          simp [foldF, stepF, hlk, ha, applyAct]
        | fail er => rfl
        | panicked => rfl
      rw [hL, hRR]
      exact ihh
    | put v =>
      have hL : foldF s₁ fs (k :: t) = foldF s₁ (updateF k v fs) t := by
        simp [foldF, stepF, ha, applyAct]
      have hstr' : ∀ k', (k' ∈ t ∨ k' ∈ ks₂) →
          optStr (lookupF k' (updateF k v fs)) = true := by
        intro k' hk'
        have hne : k ≠ k' := by
          rcases hk' with h₁ | h₁
          · exact fun hh => hkt (hh ▸ h₁)
          · exact fun hh => hkks₂ (hh ▸ h₁)
        rw [lookupF_update_ne v fs hne]
        rcases hk' with h₁ | h₁
        · exact hstr k' (Or.inl (List.mem_cons_of_mem _ h₁))
        · exact hstr k' (Or.inr h₁)
      have ihh := foldF_comm s₁ s₂ ks₂ hnd₂ t (updateF k v fs) hstr' hnd₁' hdisj'
      have hcomm : foldF s₂ (updateF k v fs) ks₂
          = Outcome.map (updateF k v) (foldF s₂ fs ks₂) :=
        foldF_update_comm v fs hkks₂
      have hRR : (foldF s₂ (updateF k v fs) ks₂).bind (fun u => foldF s₁ u t)
          = (foldF s₂ fs ks₂).bind (fun u => foldF s₁ u (k :: t)) := by
        rw [hcomm]
        cases hf₂ : foldF s₂ fs ks₂ with
        | ok u =>
          have hlk : lookupF k u = lookupF k fs := foldF_frame hf₂ hkks₂
          simp only [Outcome.map, Outcome.bind]
          simp [foldF, stepF, hlk, ha, applyAct]
        | fail er => rfl
        | panicked => rfl
      rw [hL, ← hRR]
      exact ihh
    | del =>
      have hL : foldF s₁ fs (k :: t) = foldF s₁ (removeF k fs) t := by
        simp [foldF, stepF, ha, applyAct]
      have hstr' : ∀ k', (k' ∈ t ∨ k' ∈ ks₂) →
          optStr (lookupF k' (removeF k fs)) = true := by
        intro k' hk'
        have hne : k ≠ k' := by
          rcases hk' with h₁ | h₁
          · exact fun hh => hkt (hh ▸ h₁)
          · exact fun hh => hkks₂ (hh ▸ h₁)
        rw [lookupF_remove_ne fs hne]
        rcases hk' with h₁ | h₁
        · exact hstr k' (Or.inl (List.mem_cons_of_mem _ h₁))
        · exact hstr k' (Or.inr h₁)
      have ihh := foldF_comm s₁ s₂ ks₂ hnd₂ t (removeF k fs) hstr' hnd₁' hdisj'
      have hcomm : foldF s₂ (removeF k fs) ks₂
          = Outcome.map (removeF k) (foldF s₂ fs ks₂) :=
        foldF_remove_comm fs hkks₂
      have hRR : (foldF s₂ (removeF k fs) ks₂).bind (fun u => foldF s₁ u t)
          = (foldF s₂ fs ks₂).bind (fun u => foldF s₁ u (k :: t)) := by
        rw [hcomm]
        cases hf₂ : foldF s₂ fs ks₂ with
        | ok u =>
          have hlk : lookupF k u = lookupF k fs := foldF_frame hf₂ hkks₂
          simp only [Outcome.map, Outcome.bind]
          simp [foldF, stepF, hlk, ha, applyAct]
        | fail er => rfl
        | panicked => rfl
      rw [hL, ← hRR]
      exact ihh

/-! ## The operators as first-class values (for the commutation claim) -/

theorem op_apply_obj (o : Op) (fs : Fields) :
    o.apply (.obj fs) = Outcome.map Value.obj (foldF o.stepKind fs o.keys) := by
  cases o with
  | dropOp ks => exact drop_fields_obj fs ks
  | arrayOp ks => exact convert_fields_obj _ _ fs ks
  | intOp ks => exact convert_fields_obj _ _ fs ks
  | floatOp pf ks => exact convert_fields_obj _ _ fs ks
  | strOp ks => exact convert_fields_obj _ _ fs ks
  | boolOp ks => exact convert_fields_obj _ _ fs ks

theorem op_bind_obj (o₁ o₂ : Op) (fs : Fields) :
    (o₁.apply (.obj fs)).bind o₂.apply
      = Outcome.map Value.obj ((foldF o₁.stepKind fs o₁.keys).bind
          (fun u => foldF o₂.stepKind u o₂.keys)) := by
  rw [op_apply_obj]
  cases h : foldF o₁.stepKind fs o₁.keys with
  | ok u => simp [Outcome.map, Outcome.bind, op_apply_obj o₂ u]
  | fail er => simp [Outcome.map, Outcome.bind]
  | panicked => simp [Outcome.map, Outcome.bind]

theorem outcomeMap_ok_inv {α β : Type} {g : α → β} {a : Outcome α} {v : β}
    (h : Outcome.map g a = .ok v) : ∃ u, a = .ok u ∧ v = g u := by
  cases a with
  | ok u => exact ⟨u, rfl, (Outcome.ok.inj h).symm⟩
  | fail er => exact Outcome.noConfusion h
  | panicked => exact Outcome.noConfusion h

theorem outcomeMap_isFail {α β : Type} (g : α → β) (a : Outcome α) :
    (Outcome.map g a).isFail = a.isFail := by
  cases a <;> rfl

theorem outRel_map_obj {a b : Outcome Fields} (h : OutRel a b) :
    OutRel (Outcome.map Value.obj a) (Outcome.map Value.obj b) := by
  obtain ⟨hok, hfail⟩ := h
  refine ⟨fun v => ⟨fun hv => ?_, fun hv => ?_⟩,
    by rw [outcomeMap_isFail, outcomeMap_isFail, hfail]⟩
  · obtain ⟨u, ha, rfl⟩ := outcomeMap_ok_inv hv
    rw [(hok u).mp ha]
    rfl
  · obtain ⟨u, hb, rfl⟩ := outcomeMap_ok_inv hv
    rw [(hok u).mpr hb]
    rfl

/-! ## Inversion and frame lemmas for the operator loops -/

theorem convert_fields_fail {f : String → Except Err Value} {c : Option (String → String)}
    {e : Value} {ks : List String} {er : Err}
    (h : convert_fields f c e ks = .fail er) :
    ∃ fs, e = .obj fs ∧ foldF (.convStep f c) fs ks = .fail er := by
  cases e with
  | obj fs =>
    refine ⟨fs, rfl, ?_⟩
    rw [convert_fields_obj] at h
    cases hf : foldF (.convStep f c) fs ks with
    | ok u => rw [hf] at h; exact Outcome.noConfusion h
    | fail er₂ =>
      rw [hf] at h
      rw [Outcome.fail.inj h]
    | panicked => rw [hf] at h; exact Outcome.noConfusion h
  | null => cases ks with
    | nil => exact Outcome.noConfusion h
    | cons k t => exact Outcome.noConfusion h
  | str s => cases ks with
    | nil => exact Outcome.noConfusion h
    | cons k t => exact Outcome.noConfusion h
  | int n => cases ks with
    | nil => exact Outcome.noConfusion h
    | cons k t => exact Outcome.noConfusion h
  | float x => cases ks with
    | nil => exact Outcome.noConfusion h
    | cons k t => exact Outcome.noConfusion h
  | bool b => cases ks with
    | nil => exact Outcome.noConfusion h
    | cons k t => exact Outcome.noConfusion h
  | arr vs => cases ks with
    | nil => exact Outcome.noConfusion h
    | cons k t => exact Outcome.noConfusion h

theorem convert_fields_ok {f : String → Except Err Value} {c : Option (String → String)}
    {fs : Fields} {ks : List String} {e₁ : Value}
    (h : convert_fields f c (.obj fs) ks = .ok e₁) :
    ∃ fs₁, e₁ = .obj fs₁ ∧ foldF (.convStep f c) fs ks = .ok fs₁ := by
  rw [convert_fields_obj] at h
  obtain ⟨u, hu, rfl⟩ := outcomeMap_ok_inv h
  exact ⟨u, rfl, hu⟩

/-- The error of a failed operator loop is the parse function's error,
wrapped by at most the loop's per-key context for one of its keys. -/
theorem foldF_fail (f : String → Except Err Value) (c : Option (String → String)) :
    ∀ (ks : List String) (fs : Fields) (er : Err),
      foldF (.convStep f c) fs ks = .fail er →
      ∃ k ∈ ks, ∃ s₀ er₀, f s₀ = .error er₀ ∧ er = wrapCtx c k er₀
  | [], _, _, h => Outcome.noConfusion h
  | k₀ :: t, fs, er, h => by
    cases hcur : lookupF k₀ fs with
    | none =>
      have h₁ : foldF (.convStep f c) fs t = .fail er := by
        simpa [foldF, stepF, stepAct, hcur, applyAct] using h
      obtain ⟨k, hk, s₀, er₀, hf, hw⟩ := foldF_fail f c t fs er h₁
      exact ⟨k, List.mem_cons_of_mem _ hk, s₀, er₀, hf, hw⟩
    | some v =>
      cases v with
      | str s₀ =>
        cases hf : f s₀ with
        | ok w =>
          have h₁ : foldF (.convStep f c) (updateF k₀ w fs) t = .fail er := by
            simpa [foldF, stepF, stepAct, hcur, hf, applyAct] using h
          obtain ⟨k, hk, s₁, er₀, hf₁, hw⟩ := foldF_fail f c t _ er h₁
          exact ⟨k, List.mem_cons_of_mem _ hk, s₁, er₀, hf₁, hw⟩
        | error er₀ =>
          have h₁ : er = wrapCtx c k₀ er₀ := by
            have : foldF (.convStep f c) fs (k₀ :: t) = .fail (wrapCtx c k₀ er₀) := by
              simp [foldF, stepF, stepAct, hcur, hf, applyAct]
            rw [this] at h
            exact (Outcome.fail.inj h).symm
          exact ⟨k₀, List.mem_cons_self _ _, s₀, er₀, hf, h₁⟩
      | null => exact absurd h (by simp [foldF, stepF, stepAct, hcur, applyAct])
      | int n => exact absurd h (by simp [foldF, stepF, stepAct, hcur, applyAct])
      | float x => exact absurd h (by simp [foldF, stepF, stepAct, hcur, applyAct])
      | bool b => exact absurd h (by simp [foldF, stepF, stepAct, hcur, applyAct])
      | arr vs => exact absurd h (by simp [foldF, stepF, stepAct, hcur, applyAct])
      | obj ms => exact absurd h (by simp [foldF, stepF, stepAct, hcur, applyAct])

/-- On success, a listed field is either absent before and after the
loop, or ends with a value produced by the parse function. -/
theorem foldF_range (f : String → Except Err Value) (c : Option (String → String)) :
    ∀ (ks : List String) (fs fs₁ : Fields),
      foldF (.convStep f c) fs ks = .ok fs₁ → ∀ k ∈ ks,
      (lookupF k fs = none ∧ lookupF k fs₁ = none) ∨
        (∃ s₀ v, f s₀ = .ok v ∧ lookupF k fs₁ = some v)
  | [], _, _, _, k, hk => absurd hk (List.not_mem_nil k)
  | k₀ :: t, fs, fs₁, h, k, hk => by
    cases hcur : lookupF k₀ fs with
    | none =>
      have h₁ : foldF (.convStep f c) fs t = .ok fs₁ := by
        simpa [foldF, stepF, stepAct, hcur, applyAct] using h
      by_cases hkk : k = k₀
      · subst hkk
        by_cases hkt : k ∈ t
        · exact foldF_range f c t fs fs₁ h₁ k hkt
        · exact Or.inl ⟨hcur, by rw [foldF_frame h₁ hkt, hcur]⟩
      · have hkt : k ∈ t := (List.mem_cons.mp hk).resolve_left hkk
        exact foldF_range f c t fs fs₁ h₁ k hkt
    | some v =>
      cases v with
      | str s₀ =>
        cases hf : f s₀ with
        | ok w =>
          have h₁ : foldF (.convStep f c) (updateF k₀ w fs) t = .ok fs₁ := by
            simpa [foldF, stepF, stepAct, hcur, hf, applyAct] using h
          by_cases hkk : k = k₀
          · subst hkk
            by_cases hkt : k ∈ t
            · rcases foldF_range f c t _ fs₁ h₁ k hkt with ⟨h₂, _⟩ | h₂
              · rw [lookupF_update_self w hcur] at h₂
                exact absurd h₂ (by simp)
              · exact Or.inr h₂
            · refine Or.inr ⟨s₀, w, hf, ?_⟩
              rw [foldF_frame h₁ hkt, lookupF_update_self w hcur]
          · have hkt : k ∈ t := (List.mem_cons.mp hk).resolve_left hkk
            rcases foldF_range f c t _ fs₁ h₁ k hkt with ⟨h₂, h₃⟩ | h₂
            · rw [lookupF_update_ne w fs (fun hh => hkk (Eq.symm hh))] at h₂
              exact Or.inl ⟨h₂, h₃⟩
            · exact Or.inr h₂
        | error er₀ =>
          exact absurd h (by simp [foldF, stepF, stepAct, hcur, hf, applyAct])
      | null => exact absurd h (by simp [foldF, stepF, stepAct, hcur, applyAct])
      | int n => exact absurd h (by simp [foldF, stepF, stepAct, hcur, applyAct])
      | float x => exact absurd h (by simp [foldF, stepF, stepAct, hcur, applyAct])
      | bool b => exact absurd h (by simp [foldF, stepF, stepAct, hcur, applyAct])
      | arr vs => exact absurd h (by simp [foldF, stepF, stepAct, hcur, applyAct])
      | obj ms => exact absurd h (by simp [foldF, stepF, stepAct, hcur, applyAct])

/-- The str-ify loop is the identity on events whose listed fields are
absent or strings (`|s| Ok(s.into())` writes back the same string). -/
theorem foldF_str_id (c : Option (String → String)) :
    ∀ (ks : List String) (fs : Fields),
      (∀ k ∈ ks, optStr (lookupF k fs) = true) →
      foldF (.convStep str_to_value c) fs ks = .ok fs
  | [], _, _ => rfl
  | k :: t, fs, h => by
    have htl : ∀ k' ∈ t, optStr (lookupF k' fs) = true :=
      fun k' hk' => h k' (List.mem_cons_of_mem _ hk')
    cases hcur : lookupF k fs with
    | none =>
      have h₁ := foldF_str_id c t fs htl
      simp [foldF, stepF, stepAct, hcur, applyAct, h₁]
    | some v =>
      have hv := h k (List.mem_cons_self _ _)
      rw [hcur] at hv
      cases v with
      | str s₀ =>
        have h₁ := foldF_str_id c t fs htl
        simp [foldF, stepF, stepAct, hcur, str_to_value, applyAct,
          updateF_self_eq hcur, h₁]
      | null => simp [optStr, Value.isStr] at hv
      | int n => simp [optStr, Value.isStr] at hv
      | float x => simp [optStr, Value.isStr] at hv
      | bool b => simp [optStr, Value.isStr] at hv
      | arr vs => simp [optStr, Value.isStr] at hv
      | obj ms => simp [optStr, Value.isStr] at hv

/-! ## Lemmas about `dropAll` -/

theorem lookupF_dropAll_not_mem :
    ∀ (ks : List String) (fs : Fields) {k : String}, k ∉ ks →
      lookupF k (dropAll fs ks) = lookupF k fs
  | [], _, _, _ => rfl
  | k₀ :: t, fs, k, hk => by
    have hne : k₀ ≠ k := fun hh => hk (hh ▸ List.mem_cons_self _ _)
    have htl : k ∉ t := fun hh => hk (List.mem_cons_of_mem _ hh)
    rw [dropAll, lookupF_dropAll_not_mem t _ htl, lookupF_remove_ne fs hne]

theorem lookupF_dropAll_mem :
    ∀ (ks : List String) (fs : Fields) {k : String}, k ∈ ks →
      lookupF k (dropAll fs ks) = none
  | [], _, _, hk => absurd hk (List.not_mem_nil _)
  | k₀ :: t, fs, k, hk => by
    by_cases hkt : k ∈ t
    · exact lookupF_dropAll_mem t _ hkt
    · have hkk : k = k₀ := (List.mem_cons.mp hk).resolve_right hkt
      subst hkk
      rw [dropAll, lookupF_dropAll_not_mem t _ hkt, lookupF_remove_self]

theorem dropAll_removeF (k : String) :
    ∀ (ks : List String) (fs : Fields),
      dropAll (removeF k fs) ks = removeF k (dropAll fs ks)
  | [], _ => rfl
  | k₀ :: t, fs => by
    rw [dropAll, removeF_removeF, dropAll_removeF k t, dropAll]

theorem dropAll_idem : ∀ (ks : List String) (fs : Fields),
    dropAll (dropAll fs ks) ks = dropAll fs ks
  | [], _ => rfl
  | k :: t, fs => by
    rw [dropAll, dropAll, dropAll_removeF, dropAll_idem t, ← dropAll_removeF,
      removeF_idem]

/-! ## Events built from a row hold only strings -/

theorem mem_updateF {k : String} {v : Value} :
    ∀ {fs : Fields} {p : String × Value}, p ∈ updateF k v fs → p ∈ fs ∨ p = (k, v)
  | [], p, hp => Or.inl hp
  | (k₁, v₁) :: t, p, hp => by
    by_cases h₁ : k₁ = k
    · rw [updateF, if_pos h₁] at hp
      rcases List.mem_cons.mp hp with h₂ | h₂
      · exact Or.inr (by rw [h₂, h₁])
      · exact Or.inl (List.mem_cons_of_mem _ h₂)
    · rw [updateF, if_neg h₁] at hp
      rcases List.mem_cons.mp hp with h₂ | h₂
      · exact Or.inl (h₂ ▸ List.mem_cons_self _ _)
      · rcases mem_updateF h₂ with h₃ | h₃
        · exact Or.inl (List.mem_cons_of_mem _ h₃)
        · exact Or.inr h₃

theorem insertF_all_str {fs : Fields} (hfs : ∀ p ∈ fs, Value.isStr p.2 = true)
    (k s : String) : ∀ p ∈ insertF fs k (.str s), Value.isStr p.2 = true := by
  intro p hp
  rw [insertF] at hp
  by_cases h₁ : (lookupF k fs).isSome
  · rw [if_pos h₁] at hp
    rcases mem_updateF hp with h₂ | h₂
    · exact hfs p h₂
    · rw [h₂]
      rfl
  · rw [if_neg h₁] at hp
    rcases List.mem_append.mp hp with h₂ | h₂
    · exact hfs p h₂
    · rw [List.mem_singleton.mp h₂]
      rfl

theorem buildFields_all_str :
    ∀ (l : List (String × String)) (fs : Fields),
      (∀ p ∈ fs, Value.isStr p.2 = true) →
      ∀ p ∈ l.foldl (fun acc kv => insertF acc kv.1 (.str kv.2)) fs, Value.isStr p.2 = true
  | [], _, hfs => hfs
  | kv :: t, _, hfs =>
    buildFields_all_str t _ (insertF_all_str hfs kv.1 kv.2)

theorem lookupF_all_str {fs : Fields} (hfs : ∀ p ∈ fs, Value.isStr p.2 = true)
    (k : String) : optStr (lookupF k fs) = true := by
  cases hcur : lookupF k fs with
  | none => rfl
  | some v =>
    have := hfs (k, v) (lookupF_mem hcur)
    simpa [optStr] using this

theorem buildEvent_all_str (headers record : List String) :
    ∀ p ∈ (headers.zip record).foldl (fun fs kv => insertF fs kv.1 (.str kv.2)) [],
      Value.isStr p.2 = true :=
  buildFields_all_str (headers.zip record) [] (by intro p hp; exact absurd hp (List.not_mem_nil _))

/-! ## Inversion of the parse functions -/

theorem parse_i64_digits_error_context {neg : Bool} {ds : List Char} {er : Err}
    (h : parse_i64_digits neg ds = .error er) : er.context = [] := by
  unfold parse_i64_digits at h
  repeat' split at h
  all_goals try exact Except.noConfusion h
  all_goals obtain rfl := Except.error.inj h
  all_goals rfl

theorem parse_i64_error_context {s : String} {er : Err}
    (h : parse_i64 s = .error er) : er.context = [] := by
  unfold parse_i64 at h
  repeat' split at h
  all_goals try (obtain rfl := Except.error.inj h; rfl)
  all_goals exact parse_i64_digits_error_context h

theorem parse_bool_error_context {s : String} {er : Err}
    (h : parse_bool s = .error er) : er.context = [] := by
  unfold parse_bool at h
  repeat' split at h
  all_goals try exact Except.noConfusion h
  obtain rfl := Except.error.inj h
  rfl

theorem parse_i64_digits_ok_int {neg : Bool} {ds : List Char} {v : Value}
    (h : parse_i64_digits neg ds = .ok v) : ∃ n, v = .int n := by
  unfold parse_i64_digits at h
  repeat' split at h
  all_goals try exact Except.noConfusion h
  all_goals exact ⟨_, (Except.ok.inj h).symm⟩

theorem parse_i64_ok_int {s : String} {v : Value}
    (h : parse_i64 s = .ok v) : ∃ n, v = .int n := by
  unfold parse_i64 at h
  repeat' split at h
  all_goals try exact Except.noConfusion h
  all_goals exact parse_i64_digits_ok_int h

theorem parse_json_array_ok_arr {s : String} {v : Value}
    (h : parse_json_array s = .ok v) : ∃ vs, v = .arr vs := by
  unfold parse_json_array at h
  repeat' split at h
  all_goals try exact Except.noConfusion h
  all_goals exact ⟨_, (Except.ok.inj h).symm⟩

/-! ## The endpoint registry and the zip truncation -/

theorem applyEndpointValidator_ne_account {ep : Endpoint}
    (h : ep ≠ .ReferenceDataAccount) (e : Value) :
    applyEndpointValidator ep e = .panicked := by
  cases ep with
  | ReferenceDataAccount => exact absurd rfl h
  | ReferenceDataCard => rfl
  | ReferenceDataCustomer => rfl
  | ReferenceDataDevice => rfl
  | CardAuthorization => rfl
  | CardClearing => rfl
  | TransferInitiation => rfl
  | TransferSettlement => rfl

theorem zip_eq_zip_take :
    ∀ (as bs : List String),
      as.zip bs = (as.take bs.length).zip (bs.take as.length)
  | [], bs => by simp
  | _ :: _, [] => by simp
  | a :: as, b :: bs => by
    show (a, b) :: as.zip bs = (a, b) :: (as.take bs.length).zip (bs.take as.length)
    rw [zip_eq_zip_take as bs]

/-! ## The frame/typing property of a successful validation -/

/-- Successful reference-data-account validation of an all-string
object: unlisted fields pass through, drop-list fields are gone,
array-list fields become arrays (or stay absent), int-list fields
become integers (or stay absent), the str-list field is unchanged. -/
theorem validate_frame_general (fs₀ : Fields) (out : Value)
    (hstr : ∀ p ∈ fs₀, Value.isStr p.2 = true)
    (h : ReferenceDataAccountValidator.validate (.obj fs₀) = .ok out) :
    (∀ k, k ∉ dropList → k ∉ arrayList → k ∉ intList → k ∉ strList →
        getField out k = lookupF k fs₀)
    ∧ (∀ k ∈ dropList, getField out k = none)
    ∧ (∀ k ∈ arrayList,
        (lookupF k fs₀ = none ∧ getField out k = none)
        ∨ ∃ vs, getField out k = some (.arr vs))
    ∧ (∀ k ∈ intList,
        (lookupF k fs₀ = none ∧ getField out k = none)
        ∨ ∃ n, getField out k = some (.int n))
    ∧ (∀ k ∈ strList, getField out k = lookupF k fs₀) := by
  have hDS : ∀ k ∈ strList, k ∉ dropList := by decide
  have hAS : ∀ k ∈ strList, k ∉ arrayList := by decide
  have hIS : ∀ k ∈ strList, k ∉ intList := by decide
  have hAD : ∀ k ∈ dropList, k ∉ arrayList := by decide
  have hID : ∀ k ∈ dropList, k ∉ intList := by decide
  have hIA : ∀ k ∈ arrayList, k ∉ intList := by decide
  have hDA : ∀ k ∈ arrayList, k ∉ dropList := by decide
  have hDI : ∀ k ∈ intList, k ∉ dropList := by decide
  have hAI : ∀ k ∈ intList, k ∉ arrayList := by decide
  unfold ReferenceDataAccountValidator.validate at h
  rw [show drop_fields (.obj fs₀) dropList
      = .ok (.obj (dropAll fs₀ dropList)) from rfl] at h
  simp only [Outcome.bind] at h
  cases harr : array_fields (.obj (dropAll fs₀ dropList)) arrayList with
  | fail er => rw [harr] at h; exact Outcome.noConfusion h
  | panicked => rw [harr] at h; exact Outcome.noConfusion h
  | ok e₂ =>
    rw [harr] at h
    simp only [Outcome.bind] at h
    obtain ⟨fs₂, rfl, hfold₂⟩ := convert_fields_ok harr
    cases hint : int_fields (.obj fs₂) intList with
    | fail er => rw [hint] at h; exact Outcome.noConfusion h
    | panicked => rw [hint] at h; exact Outcome.noConfusion h
    | ok e₃ =>
      rw [hint] at h
      simp only [Outcome.bind] at h
      obtain ⟨fs₃, rfl, hfold₃⟩ := convert_fields_ok hint
      have hstr₃ : ∀ k ∈ strList, optStr (lookupF k fs₃) = true := by
        intro k hk
        rw [foldF_frame hfold₃ (hIS k hk), foldF_frame hfold₂ (hAS k hk),
          lookupF_dropAll_not_mem dropList fs₀ (hDS k hk)]
        exact lookupF_all_str hstr k
      have hidstr : str_fields (.obj fs₃) strList = .ok (.obj fs₃) := by
        show convert_fields str_to_value none (.obj fs₃) strList = _
        rw [convert_fields_obj, foldF_str_id none strList fs₃ hstr₃]
        rfl
      rw [hidstr] at h
      obtain rfl : Value.obj fs₃ = out := Outcome.ok.inj h
      refine ⟨?_, ?_, ?_, ?_, ?_⟩
      · intro k hkd hka hki _
        show lookupF k fs₃ = lookupF k fs₀
        rw [foldF_frame hfold₃ hki, foldF_frame hfold₂ hka,
          lookupF_dropAll_not_mem dropList fs₀ hkd]
      · intro k hk
        show lookupF k fs₃ = none
        rw [foldF_frame hfold₃ (hID k hk), foldF_frame hfold₂ (hAD k hk)]
        exact lookupF_dropAll_mem dropList fs₀ hk
      · intro k hk
        rcases foldF_range parse_json_array (some array_ctx) arrayList _ fs₂
            hfold₂ k hk with ⟨h₁, h₂⟩ | ⟨s₀, v, hpv, h₂⟩
        · left
          rw [lookupF_dropAll_not_mem dropList fs₀ (hDA k hk)] at h₁
          refine ⟨h₁, ?_⟩
          show lookupF k fs₃ = none
          rw [foldF_frame hfold₃ (hIA k hk), h₂]
        · right
          obtain ⟨vs, rfl⟩ := parse_json_array_ok_arr hpv
          refine ⟨vs, ?_⟩
          show lookupF k fs₃ = some (.arr vs)
          rw [foldF_frame hfold₃ (hIA k hk), h₂]
      · intro k hk
        rcases foldF_range parse_i64 none intList fs₂ fs₃
            hfold₃ k hk with ⟨h₁, h₂⟩ | ⟨s₀, v, hpv, h₂⟩
        · left
          rw [foldF_frame hfold₂ (hAI k hk),
            lookupF_dropAll_not_mem dropList fs₀ (hDI k hk)] at h₁
          exact ⟨h₁, h₂⟩
        · right
          obtain ⟨n, rfl⟩ := parse_i64_ok_int hpv
          exact ⟨n, h₂⟩
      · intro k hk
        show lookupF k fs₃ = lookupF k fs₀
        rw [foldF_frame hfold₃ (hIS k hk), foldF_frame hfold₂ (hAS k hk),
          lookupF_dropAll_not_mem dropList fs₀ (hDS k hk)]

/-! ## The claims -/

/-- C1: for the input row with headers [key, event_external_id,
account_cards, account_number_of_cards, account_open_date,
account_active] and values ["k1", "e1", "[\"c1\",\"c2\"]", "2",
"20200101", "true"], reference-data-account validation succeeds and
yields an event in which key and event_external_id are absent,
account_cards is the array ["c1", "c2"], account_number_of_cards is
the integer 2, account_open_date is the integer 20200101, and
account_active is the unchanged string "true". -/
theorem c1_end_to_end :
    ReferenceDataAccountValidator.validate (buildEvent c1Headers c1Values) = .ok c1Expected
    ∧ getField c1Expected "key" = none
    ∧ getField c1Expected "event_external_id" = none
    ∧ getField c1Expected "account_cards" = some (.arr [.str "c1", .str "c2"])
    ∧ getField c1Expected "account_number_of_cards" = some (.int 2)
    ∧ getField c1Expected "account_open_date" = some (.int 20200101)
    ∧ getField c1Expected "account_active" = some (.str "true") :=
  ⟨rfl, rfl, rfl, rfl, rfl, rfl, rfl⟩

/-- C2 counterexample: selecting the (unimplemented) reference-data-card
endpoint does not fail before rows are read: with zero data rows the
run succeeds with an empty event list, and with one data row it ends in
a panic (the `todo!()` fires inside per-row processing, after the row
has been read), not in a returned UnimplementedSchema error. -/
theorem c2_counterexample :
    runPipeline Endpoint.ReferenceDataCard [] [] = .ok []
    ∧ runPipeline Endpoint.ReferenceDataCard ["h"] [["v"]] = .panicked
    ∧ (runPipeline Endpoint.ReferenceDataCard ["h"] [["v"]]).isFail = false :=
  ⟨rfl, rfl, rfl⟩

/-- C2 (amended): for every endpoint other than reference-data-account,
the unimplemented-schema lookup (`todo!()`) is evaluated inside the
per-row closure, so a run over an input with zero data rows succeeds
with an empty output, and a run with at least one data row aborts with
a panic while processing the first row (after reading it) — not with a
reported error before any row is read. -/
theorem c2_amended (ep : Endpoint) (h : ep ≠ .ReferenceDataAccount)
    (headers : List String) :
    runPipeline ep headers [] = .ok []
    ∧ ∀ (r : List String) (rs : List (List String)),
        runPipeline ep headers (r :: rs) = .panicked := by
  refine ⟨rfl, fun r rs => ?_⟩
  simp [runPipeline, applyEndpointValidator_ne_account h]

/-- C2 witness: the amended statement at the reference-data-card
endpoint with a one-column header. -/
theorem c2_witness :
    runPipeline Endpoint.ReferenceDataCard ["a"] [] = .ok []
    ∧ runPipeline Endpoint.ReferenceDataCard ["a"] (["x"] :: []) = .panicked :=
  ⟨(c2_amended .ReferenceDataCard (by decide) ["a"]).1,
   (c2_amended .ReferenceDataCard (by decide) ["a"]).2 ["x"] []⟩

/-- C3 counterexample: the to-int operator failing to parse the listed
field account_number_of_cards returns the raw parse error with an empty
context stack; the error mentions the offending field name nowhere, so
the field name is not attached as context.  (Only `array_fields` calls
`.context(...)`; `int_fields`, `float_fields` and `bool_fields`
propagate the bare error through `?`.) -/
theorem c3_counterexample :
    int_fields (.obj [("account_number_of_cards", .str "abc")])
        ["account_number_of_cards"]
      = .fail { context := [], cause := "invalid digit found in string" }
    ∧ Err.mentions { context := [], cause := "invalid digit found in string" }
        "account_number_of_cards" = false :=
  ⟨rfl, rfl⟩

/-- C3 (amended): error attribution is not uniform across the typed
coercions.  Only to-array attaches the offending field's name as
context ("Field {k} is not an array" for one of its listed keys k);
to-int and to-bool return the raw parse error with an empty context
stack, and to-float propagates its parse function's error unchanged. -/
theorem c3_amended (e : Value) (keys : List String) (er : Err) :
    (array_fields e keys = .fail er →
      ∃ k ∈ keys, er.context.head? = some (array_ctx k))
    ∧ (int_fields e keys = .fail er → er.context = [])
    ∧ (bool_fields e keys = .fail er → er.context = [])
    ∧ (∀ pf : String → Except Err Value, float_fields pf e keys = .fail er →
        ∃ k ∈ keys, ∃ s₀, pf s₀ = .error er) := by
  refine ⟨fun h => ?_, fun h => ?_, fun h => ?_, fun pf h => ?_⟩
  · obtain ⟨fs, rfl, hf⟩ := convert_fields_fail h
    obtain ⟨k, hk, s₀, er₀, hpe, rfl⟩ := foldF_fail _ _ keys fs er hf
    exact ⟨k, hk, rfl⟩
  · obtain ⟨fs, rfl, hf⟩ := convert_fields_fail h
    obtain ⟨k, hk, s₀, er₀, hpe, rfl⟩ := foldF_fail _ _ keys fs er hf
    exact parse_i64_error_context hpe
  · obtain ⟨fs, rfl, hf⟩ := convert_fields_fail h
    obtain ⟨k, hk, s₀, er₀, hpe, rfl⟩ := foldF_fail _ _ keys fs er hf
    exact parse_bool_error_context hpe
  · obtain ⟨fs, rfl, hf⟩ := convert_fields_fail h
    obtain ⟨k, hk, s₀, er₀, hpe, rfl⟩ := foldF_fail _ _ keys fs er hf
    exact ⟨k, hk, s₀, hpe⟩

/-- C3 witness: the amended statement applied at one concrete failing
input per operator. -/
theorem c3_witness :
    (∃ k ∈ ["g"],
      ({ context := ["Field g is not an array"], cause := "expected value" }
        : Err).context.head? = some (array_ctx k))
    ∧ ({ context := [], cause := "invalid digit found in string" } : Err).context
        = ([] : List String)
    ∧ ({ context := [], cause := "provided string was not true or false" } : Err).context
        = ([] : List String)
    ∧ ∃ k ∈ ["x"], ∃ s₀,
        (fun _ : String =>
          (.error { context := ["boom"], cause := "bad" } : Except Err Value)) s₀
        = .error { context := ["boom"], cause := "bad" } := by
  refine ⟨?_, ?_, ?_, ?_⟩
  · exact (c3_amended (.obj [("g", .str "nope")]) ["g"]
      { context := ["Field g is not an array"], cause := "expected value" }).1 rfl
  · exact (c3_amended (.obj [("f", .str "zz")]) ["f"]
      { context := [], cause := "invalid digit found in string" }).2.1 rfl
  · exact (c3_amended (.obj [("b", .str "maybe")]) ["b"]
      { context := [], cause := "provided string was not true or false" }).2.2.1 rfl
  · exact (c3_amended (.obj [("x", .str "s")]) ["x"]
      { context := ["boom"], cause := "bad" }).2.2.2
      (fun _ => .error { context := ["boom"], cause := "bad" }) rfl

/-- C4: the claim says a batch with one coercion-failing row reports
exactly one error and emits zero validated rows (fail-fast).  The code
does the opposite: `flatten_ok` treats the inner `eyre::Result` of the
validation as an iterator, so a failed row yields no item and is
silently dropped while every other row is validated and emitted.  At
the failing input below (three rows, the middle one fails int
coercion), the run succeeds with the two other validated rows and no
error. -/
theorem c4_code_behavior :
    runPipeline .ReferenceDataAccount ["account_number_of_cards"]
        [["1"], ["abc"], ["2"]]
      = .ok [.obj [("account_number_of_cards", .int 1)],
             .obj [("account_number_of_cards", .int 2)]]
    ∧ (runPipeline .ReferenceDataAccount ["account_number_of_cards"]
        [["1"], ["abc"], ["2"]]).isFail = false :=
  ⟨rfl, rfl⟩

/-- C5: for every event built from a row and validated successfully by
the reference-data-account validator, every field not named in any
operator list is passed through with its original string value, the
drop-list fields (key, event_external_id) are absent, every present
array-list field has become an Array (absent ones stay absent), every
present int-list field has become an Int (absent ones stay absent),
and the str-list field is unchanged (hence still a String). -/
theorem c5_frame (headers record : List String) (out : Value)
    (h : ReferenceDataAccountValidator.validate (buildEvent headers record) = .ok out) :
    (∀ k, k ∉ dropList → k ∉ arrayList → k ∉ intList → k ∉ strList →
        getField out k = getField (buildEvent headers record) k)
    ∧ (∀ k ∈ dropList, getField out k = none)
    ∧ (∀ k ∈ arrayList,
        (getField (buildEvent headers record) k = none ∧ getField out k = none)
        ∨ ∃ vs, getField out k = some (.arr vs))
    ∧ (∀ k ∈ intList,
        (getField (buildEvent headers record) k = none ∧ getField out k = none)
        ∨ ∃ n, getField out k = some (.int n))
    ∧ (∀ k ∈ strList, getField out k = getField (buildEvent headers record) k) :=
  validate_frame_general _ out (buildEvent_all_str headers record) h

/-- C5 witness: the frame property applied to a concrete row carrying
one extra non-schema field ("other"). -/
theorem c5_witness :
    getField c5Out "other" = some (.str "zzz")
    ∧ getField c5Out "key" = none
    ∧ (∃ vs, getField c5Out "account_cards" = some (.arr vs))
    ∧ (∃ n, getField c5Out "account_number_of_cards" = some (.int n))
    ∧ getField c5Out "account_active" = some (.str "true") := by
  have h := c5_frame c5Headers c5Values c5Out rfl
  refine ⟨?_, ?_, ?_, ?_, ?_⟩
  · exact (h.1 "other" (by decide) (by decide) (by decide) (by decide)).trans rfl
  · exact h.2.1 "key" (by decide)
  · exact (h.2.2.1 "account_cards" (by decide)).resolve_left
      (fun hl => Option.noConfusion hl.1)
  · exact (h.2.2.2.1 "account_number_of_cards" (by decide)).resolve_left
      (fun hl => Option.noConfusion hl.1)
  · exact (h.2.2.2.2 "account_active" (by decide)).trans rfl

/-- C6 counterexample: with two headers and a three-value row, event
construction does not reject the row: it silently builds the event from
the truncated pairing of headers with values, and the run continues
normally (no MalformedInput error exists in the code). -/
theorem c6_counterexample :
    buildEvent ["a", "b"] ["1", "2", "3"] = .obj [("a", .str "1"), ("b", .str "2")]
    ∧ runPipeline .ReferenceDataAccount ["a", "b"] [["1", "2", "3"]]
        = .ok [.obj [("a", .str "1"), ("b", .str "2")]] :=
  ⟨rfl, rfl⟩

/-- C6 (amended): when the header sequence and a row's value sequence
have different lengths, event construction does not reject the row:
`zip` silently truncates both sequences to the shorter length, so the
event equals the one built from the truncated sequences, and
construction is total (it never produces an error).  Length mismatches
are screened out upstream by the CSV reader, outside this engine. -/
theorem c6_amended (headers record : List String) :
    buildEvent headers record
      = buildEvent (headers.take record.length) (record.take headers.length) := by
  unfold buildEvent
  rw [← zip_eq_zip_take]

/-- C7 counterexample: the to-string operator applied to an event (a
field mapping) whose listed field holds a non-string value does not
succeed: it panics in the shared convert helper. -/
theorem c7_counterexample :
    str_fields (.obj [("f", .int 1)]) ["f"] = .panicked
    ∧ (str_fields (.obj [("f", .int 1)]) ["f"]).isOk = false :=
  ⟨rfl, rfl⟩

/-- C7 (amended): for every event that is a field mapping in which
every listed present field holds a string value, to-string succeeds and
returns the event unchanged: listed present fields keep their string
values, absent listed fields are skipped, and all other fields are
untouched. -/
theorem c7_amended (fs : Fields) (keys : List String)
    (h : ∀ k ∈ keys, optStr (lookupF k fs) = true) :
    str_fields (.obj fs) keys = .ok (.obj fs) := by
  show convert_fields str_to_value none (.obj fs) keys = _
  rw [convert_fields_obj, foldF_str_id none keys fs h]
  rfl

/-- C7 witness: the amended statement at a concrete event with one
listed string field, one absent listed field, and one unlisted
non-string field. -/
theorem c7_witness :
    str_fields (.obj [("a", .str "x"), ("b", .int 3)]) ["a", "c"]
      = .ok (.obj [("a", .str "x"), ("b", .int 3)]) :=
  c7_amended [("a", .str "x"), ("b", .int 3)] ["a", "c"] (by decide)

/-- C8: drop is idempotent and total on every event whose top-level
shape is a field mapping: it always succeeds (dropping an absent key
included), applying it twice with the same keys yields the same event
as applying it once, and every field not listed is left unchanged. -/
theorem c8_drop_idempotent (fields : Fields) (keys : List String) :
    drop_fields (.obj fields) keys = .ok (.obj (dropAll fields keys))
    ∧ drop_fields (.obj (dropAll fields keys)) keys = .ok (.obj (dropAll fields keys))
    ∧ ∀ k, k ∉ keys →
        getField (.obj (dropAll fields keys)) k = getField (.obj fields) k := by
  refine ⟨rfl, ?_, ?_⟩
  · show Outcome.ok (Value.obj (dropAll (dropAll fields keys) keys)) = _
    rw [dropAll_idem]
  · intro k hk
    exact lookupF_dropAll_not_mem keys fields hk

/-- C9 counterexample: with an all-string event and two int operators
on disjoint key lists (one of which lists the same key twice), one
application order returns a parse error while the other aborts with a
panic: it is not the case that one order fails exactly when the other
does. -/
theorem c9_counterexample :
    (∀ p ∈ [("a", Value.str "xx"), ("b", Value.str "12")], Value.isStr p.2 = true)
    ∧ (∀ k ∈ (Op.intOp ["a"]).keys, k ∉ (Op.intOp ["b", "b"]).keys)
    ∧ (((Op.intOp ["a"]).apply (.obj [("a", Value.str "xx"), ("b", Value.str "12")])).bind
        (Op.intOp ["b", "b"]).apply).isFail = true
    ∧ (((Op.intOp ["b", "b"]).apply (.obj [("a", Value.str "xx"), ("b", Value.str "12")])).bind
        (Op.intOp ["a"]).apply).isFail = false :=
  ⟨by decide, by decide, rfl, rfl⟩

/-- C9 (amended): for every event all of whose field values are strings
and every two coercion operators applied to disjoint, duplicate-free
field-name lists, applying the two operators in either order agrees:
the same output event on joint success, and failure in one order
exactly when the other order fails. -/
theorem c9_amended (o₁ o₂ : Op) (fs : Fields)
    (hstr : ∀ p ∈ fs, Value.isStr p.2 = true)
    (hdisj : ∀ k ∈ o₁.keys, k ∉ o₂.keys)
    (hnd₁ : o₁.keys.Nodup) (hnd₂ : o₂.keys.Nodup) :
    OutRel ((o₁.apply (.obj fs)).bind o₂.apply)
           ((o₂.apply (.obj fs)).bind o₁.apply) := by
  rw [op_bind_obj, op_bind_obj]
  apply outRel_map_obj
  exact foldF_comm o₁.stepKind o₂.stepKind o₂.keys hnd₂ o₁.keys fs
    (fun k _ => lookupF_all_str hstr k) hnd₁ hdisj

/-- C9 witness: the amended statement for to-int on
account_number_of_cards against drop on key, on a two-field
all-string event. -/
theorem c9_witness :
    OutRel (((Op.intOp ["account_number_of_cards"]).apply
          (.obj [("key", Value.str "k"), ("account_number_of_cards", Value.str "7")])).bind
        (Op.dropOp ["key"]).apply)
      (((Op.dropOp ["key"]).apply
          (.obj [("key", Value.str "k"), ("account_number_of_cards", Value.str "7")])).bind
        (Op.intOp ["account_number_of_cards"]).apply) :=
  c9_amended (Op.intOp ["account_number_of_cards"]) (Op.dropOp ["key"])
    [("key", Value.str "k"), ("account_number_of_cards", Value.str "7")]
    (by decide) (by decide) (by decide) (by decide)

/-- C10: every value-rewriting coercion operator requires listed
present fields to hold string values: the shared convert helper calls
`as_str().unwrap()` on the current value, so a present non-string value
makes it panic instead of returning a recoverable error.  Consequently
a `*_fields` loop panics when its first key holds a non-string value,
and re-validating an already-validated reference-data-account event
(whose account_cards is already an Array) panics. -/
theorem c10_convert_panics (fs : Fields) (k : String) (v : Value)
    (f : String → Except Err Value) (c : Option (String → String))
    (ks : List String)
    (hlk : lookupF k fs = some v) (hns : Value.isStr v = false) :
    convert (.obj fs) k f = .panicked
    ∧ convert_fields f c (.obj fs) (k :: ks) = .panicked
    ∧ ReferenceDataAccountValidator.validate (.obj
        [("account_cards", .arr [.str "c1"]),
         ("account_number_of_cards", .int 2),
         ("account_active", .str "true")]) = .panicked := by
  have h₁ : convert (.obj fs) k f = .panicked := by
    cases v with
    | str s => simp [Value.isStr] at hns
    | null => simp [convert, hlk]
    | int n => simp [convert, hlk]
    | float x => simp [convert, hlk]
    | bool b => simp [convert, hlk]
    | arr vs => simp [convert, hlk]
    | obj ms => simp [convert, hlk]
  refine ⟨h₁, ?_, rfl⟩
  simp [convert_fields, h₁]

/-- C10 witness: the panic at a concrete event whose listed field
already holds an integer. -/
theorem c10_witness :
    convert (.obj [("f", .int 1)]) "f" parse_i64 = .panicked
    ∧ convert_fields parse_i64 none (.obj [("f", .int 1)]) ["f"] = .panicked
    ∧ ReferenceDataAccountValidator.validate (.obj
        [("account_cards", .arr [.str "c1"]),
         ("account_number_of_cards", .int 2),
         ("account_active", .str "true")]) = .panicked :=
  c10_convert_panics [("f", .int 1)] "f" (.int 1) parse_i64 none [] rfl rfl

end FZ
